import Mathlib

/-
Shallow embedding of `src/IniParser.cpp` (IniParser v1.2, a *.ini file
reader for C++).

C++ strings are modelled as `List Char`.  The `std::map`-based two-level
store is modelled as an association list whose lookup/update semantics
agree with `std::map::operator[]`; the ordering of entries (std::map keeps
keys sorted, the association list keeps first-insertion order) is not
observable through the modelled operations.
-/

namespace IniParser

/-- C++ `std::string`, as a list of characters. -/
abbrev Str := List Char

/-- `IniParser::reserved` (IniParser.cpp lines 71-77): the five reserved
characters of the format. -/
def reserved (c : Char) : Bool :=
  c == '[' || c == ']' || c == '=' || c == ';' || c == '\n'

/-- The whitespace set of `IniParser::trimWS` (the C++ literal " \t\n\r"). -/
def isWS (c : Char) : Bool :=
  c == ' ' || c == '\t' || c == '\n' || c == '\r'

/-- `IniParser::trimWS` (lines 79-88): `find_first_not_of`/`find_last_not_of`
on " \t\n\r" followed by `substr`, i.e. the maximal-whitespace prefix and
suffix are removed; a whitespace-only string becomes the empty string. -/
def trimWS (s : Str) : Str :=
  ((s.dropWhile isWS).reverse.dropWhile isWS).reverse

/-- `IniParser::getToken` (lines 90-116) iterated by the token loop of
`IniParser::read` (lines 129-135).  `buf` is getToken's accumulator `t`:
a reserved character is emitted as a one-character token (a lone "\n" is
returned untrimmed by getToken's special case), any maximal run of
non-reserved characters is emitted trimmed.  getToken signals end of
input by returning the C++ literal "\0", which as a `std::string` is the
empty string; `read` pushes a token only when `!(token == "\0")`, so this
comparison also filters out every run that trims to the empty string. -/
def tokenizeAux : List Char → Str → List Str
  | [], buf => if trimWS buf = [] then [] else [trimWS buf]
  | c :: cs, buf =>
    if reserved c then
      if trimWS buf = [] then [c] :: tokenizeAux cs []
      else trimWS buf :: [c] :: tokenizeAux cs []
    else tokenizeAux cs (buf ++ [c])

/-- The token sequence `IniParser::read` builds from the file contents. -/
def tokenize (input : Str) : List Str := tokenizeAux input []

/-- `IniParser::isIdent` (lines 142-150): only a one-character string whose
character is reserved is rejected; everything else (including the empty
string) is accepted. -/
def isIdent : Str → Bool
  | [c] => !(reserved c)
  | _ => true

/-- Inner level of the store: `std::map<std::string, std::string>`. -/
abbrev KVMap := List (Str × Str)

/-- `IniParser::internal`: `std::map<std::string, std::map<std::string, std::string>>`. -/
abbrev Store := List (Str × KVMap)

/-- `std::map::operator[] = v` on the inner map: update the binding of `k`
if present, otherwise insert it. -/
def mapSet : KVMap → Str → Str → KVMap
  | [], k, v => [(k, v)]
  | (k', v') :: m, k, v =>
    if k' = k then (k', v) :: m else (k', v') :: mapSet m k v

/-- Lookup in the inner map. -/
def mapGet : KVMap → Str → Option Str
  | [], _ => none
  | (k', v) :: m, k => if k' = k then some v else mapGet m k

/-- `internal[s][k] = v` (IniParser.cpp lines 175 and 179): get-or-create
the section, then bind the key in it. -/
def storeSet : Store → Str → Str → Str → Store
  | [], s, k, v => [(s, [(k, v)])]
  | (s', m) :: st, s, k, v =>
    if s' = s then (s', mapSet m k v) :: st else (s', m) :: storeSet st s k v

/-- Lookup of a section map. -/
def storeFind : Store → Str → Option KVMap
  | [], _ => none
  | (s', m) :: st, s => if s' = s then some m else storeFind st s

/-- The value observed by `parser[section][key]` (operator[] at lines 58-60
followed by the inner map's operator[]): a missing section or key reads as
the default-constructed empty string.  (The mutation operator[] performs on
a miss — inserting an empty entry — is not observable through this reader.) -/
def getVal (st : Store) (s k : Str) : Str :=
  (mapGet ((storeFind st s).getD []) k).getD []

/-- The data carried by the message of `IniParser::SyntaxError` (besides the
file name): `idx` is the loop variable `i` at throw time, `line` the
`lineNumber` printed after "at line", `prev` the optional `tokens[i-1]`
context, `cur` the offending-token slot (rendered "LF" for a newline; `none`
in the end-of-input error, where the C++ reads `tokens[i]` with
`i == tokens.size()`, an out-of-bounds access), `next` the optional
`tokens[i+1]` context, and `atEof` distinguishes the end-of-input error
(whose message ends in "<- EOF") from the in-loop error. -/
structure SynError where
  idx : Nat
  line : Nat
  prev : Option Str
  cur : Option Str
  next : Option Str
  atEof : Bool
deriving DecidableEq

/-- Rendering of the offending token in the error message: a newline token
is printed as the literal "LF" (lines 197-200 and 220-223). -/
def lfShow (t : Str) : Str :=
  if t = ['\n'] then ['L', 'F'] else t

/-- The error thrown inside the parse loop (lines 188-208). -/
def stepErr (tokens : List Str) (i line : Nat) (token : Str) : SynError :=
  ⟨i, line,
   if 1 ≤ i then tokens[i-1]? else none,
   some (lfShow token),
   tokens[i+1]?,
   false⟩

/-- The error thrown by the end-of-input check (lines 211-227).  Here `i`
equals `tokens.size()`, so the C++ access `tokens[i]` (line 220) is out of
bounds; it is modelled by `tokens[i]?`, which is `none` there. -/
def eofErr (tokens : List Str) (i line : Nat) : SynError :=
  ⟨i, line,
   if 1 ≤ i then tokens[i-1]? else none,
   (tokens[i]?).map lfShow,
   none,
   true⟩

/-- The loop of `IniParser::parse` (lines 161-227).  `tokens` is the full
member vector (used for the `tokens[i-1]`/`tokens[i-2]` back-references and
the error context), the second argument is its still-unconsumed suffix,
then come the loop variable `i`, `state`, `curSection`, the store being
populated (`internal`) and `lineNumber`.  The branch order is exactly the
C++ if/else-if chain. -/
def parseLoop (tokens : List Str) :
    List Str → Nat → Nat → Str → Store → Nat → Except SynError Store
  | [], i, state, _, store, line =>
    if state ≠ 0 then Except.error (eofErr tokens i line) else Except.ok store
  | token :: rest, i, state, curSection, store, line =>
    if state = 0 ∧ token = ['['] then
      parseLoop tokens rest (i+1) 1 curSection store line
    else if state = 1 ∧ isIdent token then
      parseLoop tokens rest (i+1) 2 curSection store line
    else if state = 2 ∧ token = [']'] then
      parseLoop tokens rest (i+1) 0 (tokens.getD (i-1) []) store line
    else if state = 0 ∧ isIdent token then
      parseLoop tokens rest (i+1) 3 curSection store line
    else if state = 3 ∧ token = ['='] then
      parseLoop tokens rest (i+1) 4 curSection store line
    else if state = 4 ∧ isIdent token then
      parseLoop tokens rest (i+1) 0 curSection
        (storeSet store curSection (tokens.getD (i-2) []) token) line
    else if state = 4 ∧ token = ['\n'] then
      parseLoop tokens rest (i+1) 0 curSection
        (storeSet store curSection (tokens.getD (i-2) []) []) (line+1)
    else if state = 0 ∧ token = [';'] then
      parseLoop tokens rest (i+1) 5 curSection store line
    else if state = 5 ∧ isIdent token then
      parseLoop tokens rest (i+1) 0 curSection store line
    else if state = 0 ∧ token = ['\n'] then
      parseLoop tokens rest (i+1) 0 curSection store (line+1)
    else
      Except.error (stepErr tokens i line token)

/-- `IniParser::parse` on a token sequence, starting from an empty store:
`state = 0`, `curSection` default-constructed to "", `lineNumber = 1`. -/
def parse (tokens : List Str) : Except SynError Store :=
  parseLoop tokens tokens 0 0 [] [] 1

/-- The mutable members of an `IniParser` object that survive between
calls: the store `internal` and the token vector `tokens` (the latter is
never cleared, neither by `clear()` nor by `read()`). -/
structure ParserState where
  internal : Store
  tokens : List Str
deriving DecidableEq

/-- A freshly constructed `IniParser`. -/
def initParser : ParserState := ⟨[], []⟩

/-- `IniParser::clear` (lines 62-64): clears `internal` only. -/
def clear (st : ParserState) : ParserState := ⟨[], st.tokens⟩

/-- `IniParser::read` (lines 118-140) applied to the contents of the opened
file: the token loop appends the file's tokens to the member vector
`tokens`, then `parse()` runs over the whole vector, populating `internal`
starting from its current contents.  On a SyntaxError the exception
propagates (the partially mutated members are not modelled). -/
def read (st : ParserState) (contents : Str) : Except SynError ParserState :=
  let toks := st.tokens ++ tokenize contents
  match parseLoop toks toks 0 0 [] st.internal 1 with
  | Except.ok store => Except.ok ⟨store, toks⟩
  | Except.error e => Except.error e

/-- A committed assignment: (section, key, value). -/
abbrev Assign := Str × Str × Str

/-- One store commit `internal[a.1][a.2.1] = a.2.2`. -/
def applyAssign (st : Store) (a : Assign) : Store :=
  storeSet st a.1 a.2.1 a.2.2

/-- Specification-side companion of `parseLoop`: the sequence of
(section, key, value) commits the parse loop performs, in file order,
with the same branch structure; `none` when the loop throws. -/
def assignsLoop (tokens : List Str) :
    List Str → Nat → Nat → Str → Option (List Assign)
  | [], _, state, _ =>
    if state ≠ 0 then none else some []
  | token :: rest, i, state, curSection =>
    if state = 0 ∧ token = ['['] then
      assignsLoop tokens rest (i+1) 1 curSection
    else if state = 1 ∧ isIdent token then
      assignsLoop tokens rest (i+1) 2 curSection
    else if state = 2 ∧ token = [']'] then
      assignsLoop tokens rest (i+1) 0 (tokens.getD (i-1) [])
    else if state = 0 ∧ isIdent token then
      assignsLoop tokens rest (i+1) 3 curSection
    else if state = 3 ∧ token = ['='] then
      assignsLoop tokens rest (i+1) 4 curSection
    else if state = 4 ∧ isIdent token then
      (assignsLoop tokens rest (i+1) 0 curSection).map
        (fun l => (curSection, tokens.getD (i-2) [], token) :: l)
    else if state = 4 ∧ token = ['\n'] then
      (assignsLoop tokens rest (i+1) 0 curSection).map
        (fun l => (curSection, tokens.getD (i-2) [], ([] : Str)) :: l)
    else if state = 0 ∧ token = [';'] then
      assignsLoop tokens rest (i+1) 5 curSection
    else if state = 5 ∧ isIdent token then
      assignsLoop tokens rest (i+1) 0 curSection
    else if state = 0 ∧ token = ['\n'] then
      assignsLoop tokens rest (i+1) 0 curSection
    else
      none

/-- The assignments of a token sequence, in file order. -/
def assignsOf (tokens : List Str) : List Assign :=
  (assignsLoop tokens tokens 0 0 []).getD []

/-- The value of the last assignment to (s, k) in the list, if any. -/
def lastVal : List Assign → Str → Str → Option Str
  | [], _, _ => none
  | a :: rest, s, k =>
    match lastVal rest s k with
    | some v => some v
    | none => if a.1 = s ∧ a.2.1 = k then some a.2.2 else none

/-- Number of newline tokens in a token list. -/
def countNL (ts : List Str) : Nat :=
  ts.countP (fun t => t == ['\n'])

/-- Input of claim C1. -/
def inpC1 : Str := "[a]\nb=c\n".toList

/-- Token sequence claimed for C1. -/
def tokC1 : List Str := [['['], ['a'], [']'], ['\n'], ['b'], ['='], ['c'], ['\n']]

/-- Store claimed for C1: section "a" maps "b" to "c". -/
def storeC1 : Store := [(['a'], [(['b'], ['c'])])]

/-- Input of claim C6. -/
def inpC6 : Str := "k=\n".toList

/-- Input of claim C3: a dangling assignment. -/
def inpC3 : Str := "k=".toList

/-- The error `parse` produces on `inpC3`: the end-of-input check fires with
`i = 2 = tokens.size()`, so the offending-token slot (`cur`) comes from the
out-of-bounds C++ access `tokens[2]`, modelled as `none`. -/
def errC3 : SynError := ⟨2, 1, some ['='], none, none, true⟩

/-- Input of claim C9: a section header missing its closing bracket. -/
def inpC9 : Str := "[a\n".toList

/-- The error `parse` produces on `inpC9` (the newline is rendered "LF"). -/
def errC9 : SynError := ⟨2, 1, some ['a'], some ['L', 'F'], none, false⟩

/-- Input of claim C4: an empty section header. -/
def inpBrackets : Str := "[]".toList

/-- The error `parse` produces on `inpBrackets`: in state 1 the token "]"
fails `isIdent`. -/
def errBrackets : SynError := ⟨1, 1, some ['['], some [']'], none, false⟩

/-- An assignment with an empty key, for claim C4. -/
def inpEqFirst : Str := "=v\n".toList

/-- The error `parse` produces on `inpEqFirst`: in state 0 the token "="
fails `isIdent`. -/
def errEqFirst : SynError := ⟨0, 1, none, some ['='], some ['v'], false⟩

/-- Input of claim C8: a whitespace-only run between two reserved characters. -/
def inpWsRun : Str := "[ ]".toList

/-- First file of the claim C2 scenario. -/
def fileA : Str := "a=b\n".toList

/-- Second file of the claim C2 scenario. -/
def fileB : Str := "c=d\n".toList

/-- Parser state after reading `fileA` from a fresh parser. -/
def stA : ParserState := ⟨[([], [(['a'], ['b'])])], tokenize fileA⟩

/-- The store actually produced by `clear`+`read fileB` after `read fileA`:
it still holds the pair a -> b of the first file. -/
def leakStore : Store := [([], [(['a'], ['b']), (['c'], ['d'])])]

/-- The store of `fileB` alone. -/
def onlyB : Store := [([], [(['c'], ['d'])])]

/-- Input of the claim C5 witness: two assignments to the same key. -/
def inpC5w : Str := "[s]\na=1\na=2\n".toList

end IniParser

namespace IniParser

/-- Claim C1: tokenizing "[a]\nb=c\n" produces exactly the token sequence
"[", "a", "]", newline, "b", "=", "c", newline, and parsing that sequence
yields the store mapping section "a" to the single pair "b" -> "c". -/
theorem c1_tokenize_parse_concrete :
    tokenize inpC1 = tokC1 ∧ parse tokC1 = Except.ok storeC1 :=
  ⟨rfl, rfl⟩

/-- Claim C2 is violated by the code: `clear()` resets `internal` but the
member vector `tokens` is never cleared, and `read()` appends to it and then
parses the whole vector.  Reading "a=b\n", clearing, then reading "c=d\n"
yields a store that still contains the first file's pair a -> b (and the
token vector holds both files' tokens), instead of only the second file's
data. -/
theorem c2_token_vector_never_cleared :
    read initParser fileA = Except.ok stA ∧
    read (clear stA) fileB = Except.ok ⟨leakStore, tokenize fileA ++ tokenize fileB⟩ ∧
    parse (tokenize fileB) = Except.ok onlyB ∧
    leakStore ≠ onlyB :=
  ⟨rfl, rfl, rfl, by decide⟩

/-- Claim C3 on the input "k=": the end-of-input check fires (state 4) and
a SyntaxError is raised at line 1, but its context is built from
`tokens[i-1]` and `tokens[i]` with `i == tokens.size() == 2`, so the second
access is out of bounds (undefined behaviour in C++, `none` in the model):
the message holds only the last token "=", not the last two tokens. -/
theorem c3_eof_error_reads_past_end :
    tokenize inpC3 = [['k'], ['=']] ∧
    parse (tokenize inpC3) = Except.error errC3 ∧
    errC3.atEof = true ∧
    errC3.cur = none ∧
    (tokenize inpC3)[errC3.idx]? = none :=
  ⟨rfl, rfl, rfl, rfl, rfl⟩

/-- Counterexample to claim C4: the input "[]" does not parse successfully;
the tokenizer emits no empty token between "[" and "]", so in state 1 the
parser meets "]", which fails `isIdent`, and a SyntaxError is raised. -/
theorem c4_empty_section_header_errors :
    parse (tokenize inpBrackets) = Except.error errBrackets :=
  rfl

/-- Claim C4 as amended: the identifier-validity check itself does accept
the empty string (it rejects only single-character reserved symbols), but
empty identifier tokens are dropped from the token sequence before parsing,
so the input "[]" and an assignment with an empty key ("=v\n") both raise a
SyntaxError instead of parsing. -/
theorem c4_empty_ident_amended :
    isIdent [] = true ∧
    parse (tokenize inpBrackets) = Except.error errBrackets ∧
    parse (tokenize inpEqFirst) = Except.error errEqFirst :=
  ⟨rfl, rfl, rfl⟩

/-- Claim C6: parsing "k=\n" succeeds and yields exactly the store entry
with the default (empty) section name, key "k" and empty value. -/
theorem c6_empty_value_default_section :
    parse (tokenize inpC6) = Except.ok [([], [(['k'], [])])] :=
  rfl

/-- Counterexample to claim C8: the input "[ ]" has a whitespace-only run
between the two reserved characters, yet the token sequence is just
"[", "]" — no empty identifier token is emitted for the run. -/
theorem c8_ws_only_run_emits_no_token :
    tokenize inpWsRun = [['['], [']']] ∧ [] ∉ tokenize inpWsRun :=
  ⟨rfl, by decide⟩

/-- Every token the tokenizer pushes is non-empty: reserved characters give
one-character tokens and a run is pushed only when its trim is non-empty. -/
theorem tokenizeAux_no_empty (l : List Char) :
    ∀ buf : Str, (tokenizeAux l buf).all (fun t => !t.isEmpty) = true := by
  induction l with
  | nil =>
    intro buf
    by_cases h : trimWS buf = [] <;>
      simp [tokenizeAux, h, List.isEmpty_iff]
  | cons c cs ih =>
    intro buf
    by_cases hr : reserved c
    · by_cases h : trimWS buf = [] <;>
        simp [tokenizeAux, hr, h, ih, List.isEmpty_iff]
    · simp [tokenizeAux, hr, ih]

/-- Claim C8 as amended: a whitespace-only run yields the empty string after
trimming, and `read`'s comparison with the C++ literal "\0" (the empty
string) filters it out together with the end-of-file marker; hence the token
sequence never contains an empty token. -/
theorem c8_no_empty_token_amended (input : Str) :
    (tokenize input).all (fun t => !t.isEmpty) = true :=
  tokenizeAux_no_empty input []

/-- Claim C7: `isIdent` returns false exactly on the one-character strings
whose character is reserved ('[', ']', '=', ';' or newline); the empty
string and every string of length at least two are accepted. -/
theorem c7_isIdent_rejects_reserved_singletons (s : Str) :
    isIdent s = false ↔ ∃ c, s = [c] ∧ reserved c = true := by
  match s with
  | [] => simp [isIdent]
  | [c] => simp [isIdent]
  | c :: d :: t => simp [isIdent]

/-- A token accepted by `isIdent` is not the newline token. -/
theorem isIdent_ne_newline {t : Str} (h : isIdent t = true) : t ≠ ['\n'] := by
  intro he
  rw [he] at h
  simp [isIdent, reserved] at h

/-- Unfolding of `countNL` on a cons cell. -/
theorem countNL_cons (t : Str) (ts : List Str) :
    countNL (t :: ts) = (if t = ['\n'] then 1 else 0) + countNL ts := by
  rw [countNL, countNL, List.countP_cons]
  by_cases h : t = ['\n'] <;> simp [h, Nat.add_comm]

/-- Line-number invariant of the parse loop: when the loop (entered at
index `i` with counter `line`) throws, the error's line number exceeds
`line` by exactly the number of newline tokens consumed before the failing
index — newlines are counted exactly when consumed (states 0 and 4), and a
newline that provokes the error is not counted. -/
theorem parseLoop_error_line (tokens : List Str)
    (rest : List Str) (i state : Nat) (cur : Str) (store : Store) (line : Nat) :
    ∀ (e : SynError),
      parseLoop tokens rest i state cur store line = Except.error e →
      i ≤ e.idx ∧ e.line = line + countNL (rest.take (e.idx - i)) := by
  induction rest, i, state, cur, store, line using parseLoop.induct tokens with
  | case1 i state x store line hs =>
    intro e h
    simp only [parseLoop] at h
    rw [if_pos hs] at h
    cases h
    simp [eofErr, countNL]
  | case2 i state x store line hs =>
    intro e h
    simp only [parseLoop] at h
    rw [if_neg hs] at h
    exact Except.noConfusion h
  | case3 token rest i state curSection store line h1 ih =>
    intro e h
    simp only [parseLoop] at h
    rw [if_pos h1] at h
    obtain ⟨hle, hl⟩ := ih e h
    refine ⟨by omega, ?_⟩
    have hd : e.idx - i = (e.idx - (i+1)) + 1 := by omega
    rw [hd, List.take_succ_cons, countNL_cons, if_neg (by rw [h1.2]; decide)]
    omega
  | case4 token rest i state curSection store line h1 h2 ih =>
    intro e h
    simp only [parseLoop] at h
    rw [if_neg h1, if_pos h2] at h
    obtain ⟨hle, hl⟩ := ih e h
    refine ⟨by omega, ?_⟩
    have hd : e.idx - i = (e.idx - (i+1)) + 1 := by omega
    rw [hd, List.take_succ_cons, countNL_cons, if_neg (isIdent_ne_newline h2.2)]
    omega
  | case5 token rest i state curSection store line h1 h2 h3 ih =>
    intro e h
    simp only [parseLoop] at h
    rw [if_neg h1, if_neg h2, if_pos h3] at h
    obtain ⟨hle, hl⟩ := ih e h
    refine ⟨by omega, ?_⟩
    have hd : e.idx - i = (e.idx - (i+1)) + 1 := by omega
    rw [hd, List.take_succ_cons, countNL_cons, if_neg (by rw [h3.2]; decide)]
    omega
  | case6 token rest i state curSection store line h1 h2 h3 h4 ih =>
    intro e h
    simp only [parseLoop] at h
    rw [if_neg h1, if_neg h2, if_neg h3, if_pos h4] at h
    obtain ⟨hle, hl⟩ := ih e h
    refine ⟨by omega, ?_⟩
    have hd : e.idx - i = (e.idx - (i+1)) + 1 := by omega
    rw [hd, List.take_succ_cons, countNL_cons, if_neg (isIdent_ne_newline h4.2)]
    omega
  | case7 token rest i state curSection store line h1 h2 h3 h4 h5 ih =>
    intro e h
    simp only [parseLoop] at h
    rw [if_neg h1, if_neg h2, if_neg h3, if_neg h4, if_pos h5] at h
    obtain ⟨hle, hl⟩ := ih e h
    refine ⟨by omega, ?_⟩
    have hd : e.idx - i = (e.idx - (i+1)) + 1 := by omega
    rw [hd, List.take_succ_cons, countNL_cons, if_neg (by rw [h5.2]; decide)]
    omega
  | case8 token rest i state curSection store line h1 h2 h3 h4 h5 h6 ih =>
    intro e h
    simp only [parseLoop] at h
    rw [if_neg h1, if_neg h2, if_neg h3, if_neg h4, if_neg h5, if_pos h6] at h
    obtain ⟨hle, hl⟩ := ih e h
    refine ⟨by omega, ?_⟩
    have hd : e.idx - i = (e.idx - (i+1)) + 1 := by omega
    rw [hd, List.take_succ_cons, countNL_cons, if_neg (isIdent_ne_newline h6.2)]
    omega
  | case9 token rest i state curSection store line h1 h2 h3 h4 h5 h6 h7 ih =>
    intro e h
    simp only [parseLoop] at h
    rw [if_neg h1, if_neg h2, if_neg h3, if_neg h4, if_neg h5, if_neg h6,
        if_pos h7] at h
    obtain ⟨hle, hl⟩ := ih e h
    refine ⟨by omega, ?_⟩
    have hd : e.idx - i = (e.idx - (i+1)) + 1 := by omega
    rw [hd, List.take_succ_cons, countNL_cons, if_pos h7.2]
    omega
  | case10 token rest i state curSection store line h1 h2 h3 h4 h5 h6 h7 h8 ih =>
    intro e h
    simp only [parseLoop] at h
    rw [if_neg h1, if_neg h2, if_neg h3, if_neg h4, if_neg h5, if_neg h6,
        if_neg h7, if_pos h8] at h
    obtain ⟨hle, hl⟩ := ih e h
    refine ⟨by omega, ?_⟩
    have hd : e.idx - i = (e.idx - (i+1)) + 1 := by omega
    rw [hd, List.take_succ_cons, countNL_cons, if_neg (by rw [h8.2]; decide)]
    omega
  | case11 token rest i state curSection store line h1 h2 h3 h4 h5 h6 h7 h8 h9 ih =>
    intro e h
    simp only [parseLoop] at h
    rw [if_neg h1, if_neg h2, if_neg h3, if_neg h4, if_neg h5, if_neg h6,
        if_neg h7, if_neg h8, if_pos h9] at h
    obtain ⟨hle, hl⟩ := ih e h
    refine ⟨by omega, ?_⟩
    have hd : e.idx - i = (e.idx - (i+1)) + 1 := by omega
    rw [hd, List.take_succ_cons, countNL_cons, if_neg (isIdent_ne_newline h9.2)]
    omega
  | case12 token rest i state curSection store line h1 h2 h3 h4 h5 h6 h7 h8 h9 h10 ih =>
    intro e h
    simp only [parseLoop] at h
    rw [if_neg h1, if_neg h2, if_neg h3, if_neg h4, if_neg h5, if_neg h6,
        if_neg h7, if_neg h8, if_neg h9, if_pos h10] at h
    obtain ⟨hle, hl⟩ := ih e h
    refine ⟨by omega, ?_⟩
    have hd : e.idx - i = (e.idx - (i+1)) + 1 := by omega
    rw [hd, List.take_succ_cons, countNL_cons, if_pos h10.2]
    omega
  | case13 token rest i state curSection store line h1 h2 h3 h4 h5 h6 h7 h8 h9 h10 =>
    intro e h
    simp only [parseLoop] at h
    rw [if_neg h1, if_neg h2, if_neg h3, if_neg h4, if_neg h5, if_neg h6,
        if_neg h7, if_neg h8, if_neg h9, if_neg h10] at h
    cases h
    simp [stepErr, countNL]

/-- Claim C9: the malformed input "[a\n" raises a SyntaxError referencing
line 1, and in general the line number reported by any error is 1-based and
counts exactly the newline tokens consumed before the failing index. -/
theorem c9_error_line_numbers :
    (parse (tokenize inpC9) = Except.error errC9 ∧ errC9.line = 1) ∧
    ∀ (tokens : List Str) (e : SynError),
      parse tokens = Except.error e →
      e.line = 1 + countNL (tokens.take e.idx) := by
  refine ⟨⟨rfl, rfl⟩, ?_⟩
  intro tokens e h
  obtain ⟨-, hl⟩ := parseLoop_error_line tokens tokens 0 0 [] [] 1 e h
  simpa using hl

/-- Witness for C9's general part at the concrete input "[a\n". -/
theorem c9_error_line_numbers_witness :
    parse (tokenize inpC9) = Except.error errC9 ∧
    errC9.line = 1 + countNL ((tokenize inpC9).take errC9.idx) :=
  ⟨rfl, c9_error_line_numbers.2 (tokenize inpC9) errC9 rfl⟩

/-- The head of a `dropWhile` result does not satisfy the predicate. -/
theorem head?_dropWhile {p : Char → Bool} : ∀ {l : Str} {c : Char},
    (l.dropWhile p).head? = some c → p c = false := by
  intro l
  induction l with
  | nil =>
    intro c h
    simp [List.dropWhile] at h
  | cons a l ih =>
    intro c h
    rw [List.dropWhile_cons] at h
    by_cases hp : p a
    · rw [if_pos hp] at h
      exact ih h
    · rw [if_neg hp] at h
      simp at h
      rw [← h]
      simpa using hp

/-- Dropping a satisfied prefix does not change the last element. -/
theorem getLast?_dropWhile {p : Char → Bool} : ∀ {l : Str},
    l.dropWhile p ≠ [] → (l.dropWhile p).getLast? = l.getLast? := by
  intro l
  induction l with
  | nil =>
    intro h
    simp [List.dropWhile] at h
  | cons a l ih =>
    intro h
    rw [List.dropWhile_cons] at h ⊢
    by_cases hp : p a
    · rw [if_pos hp] at h ⊢
      rw [ih h]
      cases l with
      | nil => simp [List.dropWhile] at h
      | cons b l2 => rw [List.getLast?_cons_cons]
    · rw [if_neg hp]

/-- Characters of a trimmed string come from the original string. -/
theorem mem_trimWS {c : Char} {s : Str} (h : c ∈ trimWS s) : c ∈ s := by
  simp only [trimWS] at h
  rw [List.mem_reverse] at h
  have h2 := (List.dropWhile_sublist isWS).subset h
  rw [List.mem_reverse] at h2
  exact (List.dropWhile_sublist isWS).subset h2

/-- The first character of a trimmed string is not whitespace. -/
theorem trimWS_head {s : Str} {c : Char} (h : (trimWS s).head? = some c) :
    isWS c = false := by
  simp only [trimWS] at h
  rw [List.head?_reverse] at h
  have hne : (s.dropWhile isWS).reverse.dropWhile isWS ≠ [] := by
    intro he
    rw [he] at h
    simp at h
  rw [getLast?_dropWhile hne, List.getLast?_reverse] at h
  exact head?_dropWhile h

/-- The last character of a trimmed string is not whitespace. -/
theorem trimWS_getLast {s : Str} {c : Char} (h : (trimWS s).getLast? = some c) :
    isWS c = false := by
  simp only [trimWS] at h
  rw [List.getLast?_reverse] at h
  exact head?_dropWhile h

/-- A trimmed buffer of non-reserved characters is a clean identifier token:
no reserved characters, no leading and no trailing whitespace. -/
theorem trimWS_shape (buf : Str) (hbuf : ∀ c, c ∈ buf → reserved c = false) :
    (∀ c, c ∈ trimWS buf → reserved c = false) ∧
    (∀ c, (trimWS buf).head? = some c → isWS c = false) ∧
    (∀ c, (trimWS buf).getLast? = some c → isWS c = false) :=
  ⟨fun c hc => hbuf c (mem_trimWS hc),
   fun _ hc => trimWS_head hc,
   fun _ hc => trimWS_getLast hc⟩

/-- A character accepted by `reserved` is one of the five symbols. -/
theorem reserved_cases {c : Char} (h : reserved c = true) :
    c = '[' ∨ c = ']' ∨ c = '=' ∨ c = ';' ∨ c = '\n' := by
  simp only [reserved, Bool.or_eq_true, beq_iff_eq] at h
  tauto

/-- Shape of every token `tokenizeAux` emits, assuming the buffer so far
holds only non-reserved characters (it always does). -/
theorem tokenizeAux_shape : ∀ (l : List Char) (buf : Str),
    (∀ c, c ∈ buf → reserved c = false) →
    ∀ t, t ∈ tokenizeAux l buf →
      (t = ['['] ∨ t = [']'] ∨ t = ['='] ∨ t = [';'] ∨ t = ['\n']) ∨
      ((∀ c, c ∈ t → reserved c = false) ∧
       (∀ c, t.head? = some c → isWS c = false) ∧
       (∀ c, t.getLast? = some c → isWS c = false)) := by
  intro l
  induction l with
  | nil =>
    intro buf hbuf t ht
    simp only [tokenizeAux] at ht
    by_cases he : trimWS buf = []
    · rw [if_pos he] at ht
      simp at ht
    · rw [if_neg he] at ht
      simp at ht
      subst ht
      exact Or.inr (trimWS_shape buf hbuf)
  | cons a l2 ih =>
    intro buf hbuf t ht
    simp only [tokenizeAux] at ht
    by_cases hr : reserved a
    · rw [if_pos hr] at ht
      by_cases he : trimWS buf = []
      · rw [if_pos he] at ht
        rcases List.mem_cons.mp ht with h1 | h1
        · subst h1
          left
          rcases reserved_cases hr with rfl | rfl | rfl | rfl | rfl <;> simp
        · exact ih [] (fun c hc => absurd hc (List.not_mem_nil c)) t h1
      · rw [if_neg he] at ht
        rcases List.mem_cons.mp ht with h1 | h1
        · subst h1
          exact Or.inr (trimWS_shape buf hbuf)
        · rcases List.mem_cons.mp h1 with h2 | h2
          · subst h2
            left
            rcases reserved_cases hr with rfl | rfl | rfl | rfl | rfl <;> simp
          · exact ih [] (fun c hc => absurd hc (List.not_mem_nil c)) t h2
    · rw [if_neg hr] at ht
      refine ih (buf ++ [a]) ?_ t ht
      intro c hc
      rcases List.mem_append.mp hc with h1 | h1
      · exact hbuf c h1
      · simp at h1
        subst h1
        simpa using hr

/-- Claim C10: every token the tokenizer produces is either exactly one of
the five single-character reserved symbols, or an identifier containing no
reserved character and carrying no leading or trailing whitespace. -/
theorem c10_token_shape (input : Str) :
    ∀ t ∈ tokenize input,
      (t = ['['] ∨ t = [']'] ∨ t = ['='] ∨ t = [';'] ∨ t = ['\n']) ∨
      ((∀ c, c ∈ t → reserved c = false) ∧
       (∀ c, t.head? = some c → isWS c = false) ∧
       (∀ c, t.getLast? = some c → isWS c = false)) :=
  fun t ht =>
    tokenizeAux_shape input [] (fun c hc => absurd hc (List.not_mem_nil c)) t ht

/-- Witness for C10 at the token "a" of the input "[a]\nb=c\n". -/
theorem c10_token_shape_witness :
    ['a'] ∈ tokenize inpC1 ∧
    (((['a'] : Str) = ['['] ∨ (['a'] : Str) = [']'] ∨ (['a'] : Str) = ['='] ∨
      (['a'] : Str) = [';'] ∨ (['a'] : Str) = ['\n']) ∨
     ((∀ c, c ∈ (['a'] : Str) → reserved c = false) ∧
      (∀ c, (['a'] : Str).head? = some c → isWS c = false) ∧
      (∀ c, (['a'] : Str).getLast? = some c → isWS c = false))) :=
  ⟨by decide, c10_token_shape inpC1 ['a'] (by decide)⟩

/-- Reading back an updated key of the inner map. -/
theorem mapGet_mapSet (k v : Str) : ∀ (m : KVMap) (q : Str),
    mapGet (mapSet m k v) q = if k = q then some v else mapGet m q := by
  intro m
  induction m with
  | nil =>
    intro q
    simp only [mapSet, mapGet]
  | cons p m ih =>
    intro q
    obtain ⟨k0, v0⟩ := p
    by_cases h0 : k0 = k
    · subst h0
      by_cases hq : k0 = q <;> simp [mapSet, mapGet, hq]
    · by_cases hq : k0 = q
      · subst hq
        have h0' : ¬ k = k0 := fun he => h0 he.symm
        simp [mapSet, mapGet, h0, h0']
      · simp [mapSet, mapGet, h0, hq, ih q]

/-- Finding a section after a store update. -/
theorem storeFind_storeSet (s k v : Str) : ∀ (st : Store) (q : Str),
    storeFind (storeSet st s k v) q =
      if s = q then some (mapSet ((storeFind st s).getD []) k v)
      else storeFind st q := by
  intro st
  induction st with
  | nil =>
    intro q
    by_cases hq : s = q <;> simp [storeSet, storeFind, hq, mapSet]
  | cons p st ih =>
    intro q
    obtain ⟨s0, m0⟩ := p
    by_cases h0 : s0 = s
    · subst h0
      by_cases hq : s0 = q <;> simp [storeSet, storeFind, hq]
    · by_cases hq : s0 = q
      · subst hq
        have h0' : ¬ s = s0 := fun he => h0 he.symm
        simp [storeSet, storeFind, h0, h0']
      · simp [storeSet, storeFind, h0, hq, ih q]

/-- Reading back a store after one commit: the committed pair reads as the
new value, everything else is unchanged. -/
theorem getVal_storeSet (s k v : Str) (st : Store) (q r : Str) :
    getVal (storeSet st s k v) q r =
      if s = q ∧ k = r then v else getVal st q r := by
  simp only [getVal, storeFind_storeSet]
  by_cases hq : s = q
  · subst hq
    rw [if_pos rfl]
    simp only [Option.getD_some, mapGet_mapSet]
    by_cases hr : k = r
    · simp [hr]
    · simp [hr]
  · rw [if_neg hq, if_neg (fun hc => hq hc.1)]

/-- Reading a store obtained by a sequence of commits: the last commit to
(s, k) wins; if there is none, the initial store is read. -/
theorem getVal_foldl : ∀ (l : List Assign) (st : Store) (s k : Str),
    getVal (l.foldl applyAssign st) s k = (lastVal l s k).getD (getVal st s k) := by
  intro l
  induction l with
  | nil =>
    intro st s k
    simp [lastVal]
  | cons a l ih =>
    intro st s k
    rw [List.foldl_cons, ih]
    simp only [lastVal]
    cases hl : lastVal l s k with
    | some v => simp
    | none =>
      simp only [Option.getD_none]
      rw [applyAssign, getVal_storeSet]
      by_cases hm : a.1 = s ∧ a.2.1 = k <;> simp [hm]

/-- The parse loop, when it succeeds, returns the store obtained by folding
the commits collected by `assignsLoop` (in file order) over the store it was
entered with. -/
theorem parseLoop_ok_assigns (tokens : List Str)
    (rest : List Str) (i state : Nat) (cur : Str) (store : Store) (line : Nat) :
    ∀ final : Store,
      parseLoop tokens rest i state cur store line = Except.ok final →
      ∃ l, assignsLoop tokens rest i state cur = some l ∧
           final = l.foldl applyAssign store := by
  induction rest, i, state, cur, store, line using parseLoop.induct tokens with
  | case1 i state x store line hs =>
    intro final h
    simp only [parseLoop] at h
    rw [if_pos hs] at h
    exact Except.noConfusion h
  | case2 i state x store line hs =>
    intro final h
    simp only [parseLoop] at h
    rw [if_neg hs] at h
    cases h
    refine ⟨[], ?_, rfl⟩
    simp only [assignsLoop]
    rw [if_neg hs]
  | case3 token rest i state curSection store line h1 ih =>
    intro final h
    simp only [parseLoop] at h
    rw [if_pos h1] at h
    obtain ⟨l, ha, hf⟩ := ih final h
    refine ⟨l, ?_, hf⟩
    simp only [assignsLoop]
    rw [if_pos h1, ha]
  | case4 token rest i state curSection store line h1 h2 ih =>
    intro final h
    simp only [parseLoop] at h
    rw [if_neg h1, if_pos h2] at h
    obtain ⟨l, ha, hf⟩ := ih final h
    refine ⟨l, ?_, hf⟩
    simp only [assignsLoop]
    rw [if_neg h1, if_pos h2, ha]
  | case5 token rest i state curSection store line h1 h2 h3 ih =>
    intro final h
    simp only [parseLoop] at h
    rw [if_neg h1, if_neg h2, if_pos h3] at h
    obtain ⟨l, ha, hf⟩ := ih final h
    refine ⟨l, ?_, hf⟩
    simp only [assignsLoop]
    rw [if_neg h1, if_neg h2, if_pos h3, ha]
  | case6 token rest i state curSection store line h1 h2 h3 h4 ih =>
    intro final h
    simp only [parseLoop] at h
    rw [if_neg h1, if_neg h2, if_neg h3, if_pos h4] at h
    obtain ⟨l, ha, hf⟩ := ih final h
    refine ⟨l, ?_, hf⟩
    simp only [assignsLoop]
    rw [if_neg h1, if_neg h2, if_neg h3, if_pos h4, ha]
  | case7 token rest i state curSection store line h1 h2 h3 h4 h5 ih =>
    intro final h
    simp only [parseLoop] at h
    rw [if_neg h1, if_neg h2, if_neg h3, if_neg h4, if_pos h5] at h
    obtain ⟨l, ha, hf⟩ := ih final h
    refine ⟨l, ?_, hf⟩
    simp only [assignsLoop]
    rw [if_neg h1, if_neg h2, if_neg h3, if_neg h4, if_pos h5, ha]
  | case8 token rest i state curSection store line h1 h2 h3 h4 h5 h6 ih =>
    intro final h
    simp only [parseLoop] at h
    rw [if_neg h1, if_neg h2, if_neg h3, if_neg h4, if_neg h5, if_pos h6] at h
    obtain ⟨l, ha, hf⟩ := ih final h
    refine ⟨(curSection, tokens.getD (i-2) [], token) :: l, ?_, ?_⟩
    · simp only [assignsLoop]
      rw [if_neg h1, if_neg h2, if_neg h3, if_neg h4, if_neg h5, if_pos h6, ha]
      rfl
    · rw [List.foldl_cons]
      exact hf
  | case9 token rest i state curSection store line h1 h2 h3 h4 h5 h6 h7 ih =>
    intro final h
    simp only [parseLoop] at h
    rw [if_neg h1, if_neg h2, if_neg h3, if_neg h4, if_neg h5, if_neg h6,
        if_pos h7] at h
    obtain ⟨l, ha, hf⟩ := ih final h
    refine ⟨(curSection, tokens.getD (i-2) [], ([] : Str)) :: l, ?_, ?_⟩
    · simp only [assignsLoop]
      rw [if_neg h1, if_neg h2, if_neg h3, if_neg h4, if_neg h5, if_neg h6,
          if_pos h7, ha]
      rfl
    · rw [List.foldl_cons]
      exact hf
  | case10 token rest i state curSection store line h1 h2 h3 h4 h5 h6 h7 h8 ih =>
    intro final h
    simp only [parseLoop] at h
    rw [if_neg h1, if_neg h2, if_neg h3, if_neg h4, if_neg h5, if_neg h6,
        if_neg h7, if_pos h8] at h
    obtain ⟨l, ha, hf⟩ := ih final h
    refine ⟨l, ?_, hf⟩
    simp only [assignsLoop]
    rw [if_neg h1, if_neg h2, if_neg h3, if_neg h4, if_neg h5, if_neg h6,
        if_neg h7, if_pos h8, ha]
  | case11 token rest i state curSection store line h1 h2 h3 h4 h5 h6 h7 h8 h9 ih =>
    intro final h
    simp only [parseLoop] at h
    rw [if_neg h1, if_neg h2, if_neg h3, if_neg h4, if_neg h5, if_neg h6,
        if_neg h7, if_neg h8, if_pos h9] at h
    obtain ⟨l, ha, hf⟩ := ih final h
    refine ⟨l, ?_, hf⟩
    simp only [assignsLoop]
    rw [if_neg h1, if_neg h2, if_neg h3, if_neg h4, if_neg h5, if_neg h6,
        if_neg h7, if_neg h8, if_pos h9, ha]
  | case12 token rest i state curSection store line h1 h2 h3 h4 h5 h6 h7 h8 h9 h10 ih =>
    intro final h
    simp only [parseLoop] at h
    rw [if_neg h1, if_neg h2, if_neg h3, if_neg h4, if_neg h5, if_neg h6,
        if_neg h7, if_neg h8, if_neg h9, if_pos h10] at h
    obtain ⟨l, ha, hf⟩ := ih final h
    refine ⟨l, ?_, hf⟩
    simp only [assignsLoop]
    rw [if_neg h1, if_neg h2, if_neg h3, if_neg h4, if_neg h5, if_neg h6,
        if_neg h7, if_neg h8, if_neg h9, if_pos h10, ha]
  | case13 token rest i state curSection store line h1 h2 h3 h4 h5 h6 h7 h8 h9 h10 =>
    intro final h
    simp only [parseLoop] at h
    rw [if_neg h1, if_neg h2, if_neg h3, if_neg h4, if_neg h5, if_neg h6,
        if_neg h7, if_neg h8, if_neg h9, if_neg h10] at h
    exact Except.noConfusion h

/-- Claim C5: on an input the parser accepts (the implementation's grammar),
a `read` from a fresh parser followed by `get(s, k)` returns exactly the
value of the last assignment to the pair (s, k) in file order; earlier
assignments to the same pair are overwritten. -/
theorem c5_get_returns_last_assignment
    (input : Str) (pst : ParserState) (s k v : Str)
    (hok : read initParser input = Except.ok pst)
    (hlast : lastVal (assignsOf (tokenize input)) s k = some v) :
    getVal pst.internal s k = v := by
  simp only [read, initParser, List.nil_append] at hok
  cases hp : parseLoop (tokenize input) (tokenize input) 0 0 [] [] 1 with
  | error e =>
    rw [hp] at hok
    exact Except.noConfusion hok
  | ok store =>
    rw [hp] at hok
    cases hok
    obtain ⟨l, ha, hf⟩ :=
      parseLoop_ok_assigns (tokenize input) (tokenize input) 0 0 [] [] 1 store hp
    rw [assignsOf, ha, Option.getD_some] at hlast
    subst hf
    show getVal (l.foldl applyAssign []) s k = v
    rw [getVal_foldl, hlast]
    rfl

/-- Witness for C5: in "[s]\na=1\na=2\n" the key a of section s is assigned
twice; `get` returns the last value "2". -/
theorem c5_last_assignment_witness :
    read initParser inpC5w =
      Except.ok ⟨[(['s'], [(['a'], ['2'])])], tokenize inpC5w⟩ ∧
    lastVal (assignsOf (tokenize inpC5w)) ['s'] ['a'] = some ['2'] ∧
    getVal [(['s'], [(['a'], ['2'])])] ['s'] ['a'] = ['2'] :=
  ⟨rfl, rfl,
   c5_get_returns_last_assignment inpC5w
     ⟨[(['s'], [(['a'], ['2'])])], tokenize inpC5w⟩ ['s'] ['a'] ['2'] rfl rfl⟩

end IniParser
